import Mathlib

/-!
Shallow embedding of the codequick routing/dispatch framework
(script.module.codequick/lib/codequick/support.py and lib/codequick/{api,utils}.py),
with theorems checking the natural-language specification against the code.

Python dicts are modelled as insertion-ordered association lists; Python
exceptions are modelled as an `Except` error channel carrying the exception
class name and message; the external `pickle` serializer is modelled by a
concrete self-describing byte serializer (`serVal`/`unpickle`) satisfying the
same round-trip contract, with `binascii.hexlify`/`unhexlify` modelled
concretely over byte lists.
-/

/-- A raised Python exception: class name and message. -/
structure Exc where
  name : String
  msg : String
deriving DecidableEq, Repr

/-- Values that can travel through the opaque (pickled) parameter channel:
Python scalars, sequences and mappings. -/
inductive PyValue where
  | vnone : PyValue
  | vbool : Bool → PyValue
  | vint : Int → PyValue
  | vstr : String → PyValue
  | vlist : List PyValue → PyValue
  | vdict : List (String × PyValue) → PyValue

/-- Unary byte encoding of a natural number: `n` one-bytes then a zero byte.
Part of the model of the external serializer. -/
def encNat (n : Nat) : List Nat :=
  List.replicate n 1 ++ [0]

/-- Decode a unary-encoded natural, returning the value and the remaining bytes. -/
def decNat : List Nat → Option (Nat × List Nat)
  | [] => Option.none
  | 0 :: rest => some (0, rest)
  | (_ + 1) :: rest => (decNat rest).map fun p => (p.1 + 1, p.2)

/-- Byte encoding of a string: character count, then each code point, all unary. -/
def serStr (s : String) : List Nat :=
  encNat s.data.length ++ (s.data.map fun c => encNat c.toNat).flatten

/-- Decode `k` characters from the byte stream. -/
def decChars : Nat → List Nat → Option (List Char × List Nat)
  | 0, bs => some ([], bs)
  | k + 1, bs =>
    (decNat bs).bind fun p =>
      (decChars k p.2).map fun q => (Char.ofNat p.1 :: q.1, q.2)

/-- Decode a serialized string (length then code points). -/
def decStr (bs : List Nat) : Option (String × List Nat) :=
  (decNat bs).bind fun p =>
    (decChars p.1 p.2).map fun q => (String.mk q.1, q.2)

mutual

/-- Model of `pickle.dumps`: serialize a value into a self-describing byte list. -/
def serVal : PyValue → List Nat
  | .vnone => [0]
  | .vbool b => [1, if b then 1 else 0]
  | .vint i => [2, if i < 0 then 1 else 0] ++ encNat i.natAbs
  | .vstr s => 3 :: serStr s
  | .vlist vs => 4 :: (encNat vs.length ++ serVals vs)
  | .vdict ps => 5 :: (encNat ps.length ++ serPairs ps)

/-- Serialize the elements of a list value in order. -/
def serVals : List PyValue → List Nat
  | [] => []
  | v :: vs => serVal v ++ serVals vs

/-- Serialize the key/value pairs of a mapping value in order. -/
def serPairs : List (String × PyValue) → List Nat
  | [] => []
  | (k, v) :: ps => serStr k ++ serVal v ++ serPairs ps

end

mutual

/-- Nesting depth of a value, used as the decoder's recursion budget. -/
def vdepth : PyValue → Nat
  | .vnone => 1
  | .vbool _ => 1
  | .vint _ => 1
  | .vstr _ => 1
  | .vlist vs => vsdepth vs + 1
  | .vdict ps => psdepth ps + 1

/-- Summed depth of a list of values. -/
def vsdepth : List PyValue → Nat
  | [] => 0
  | v :: vs => vdepth v + vsdepth vs

/-- Summed depth of a list of pairs. -/
def psdepth : List (String × PyValue) → Nat
  | [] => 0
  | (_, v) :: ps => vdepth v + psdepth ps

end

mutual

/-- Fuelled decoder for one serialized value (model of `pickle.loads`). -/
def decVal : Nat → List Nat → Option (PyValue × List Nat)
  | 0, _ => Option.none
  | _ + 1, 0 :: r => some (.vnone, r)
  | _ + 1, 1 :: b :: r => some (.vbool (b == 1), r)
  | _ + 1, 2 :: s :: r =>
    (decNat r).map fun p =>
      (.vint (if s == 1 then -(p.1 : Int) else (p.1 : Int)), p.2)
  | _ + 1, 3 :: r => (decStr r).map fun p => (.vstr p.1, p.2)
  | fuel + 1, 4 :: r =>
    (decNat r).bind fun p =>
      (decVals fuel p.1 p.2).map fun q => (.vlist q.1, q.2)
  | fuel + 1, 5 :: r =>
    (decNat r).bind fun p =>
      (decPairs fuel p.1 p.2).map fun q => (.vdict q.1, q.2)
  | _ + 1, _ => Option.none
termination_by fuel _bs => (fuel, 0)

/-- Fuelled decoder for exactly `k` serialized values. -/
def decVals : Nat → Nat → List Nat → Option (List PyValue × List Nat)
  | _, 0, bs => some ([], bs)
  | fuel, k + 1, bs =>
    (decVal fuel bs).bind fun p =>
      (decVals fuel k p.2).map fun q => (p.1 :: q.1, q.2)
termination_by fuel k _bs => (fuel, k + 1)

/-- Fuelled decoder for exactly `k` serialized key/value pairs. -/
def decPairs : Nat → Nat → List Nat → Option (List (String × PyValue) × List Nat)
  | _, 0, bs => some ([], bs)
  | fuel, k + 1, bs =>
    (decStr bs).bind fun s =>
      (decVal fuel s.2).bind fun p =>
        (decPairs fuel k p.2).map fun q => ((s.1, p.1) :: q.1, q.2)
termination_by fuel k _bs => (fuel, k + 1)

end

/-- Model of `pickle.loads` applied to a whole blob: decode one value with the
blob's own length as recursion budget. -/
def unpickleVal (bs : List Nat) : Option PyValue :=
  (decVal bs.length bs).map fun p => p.1

/-- One hexadecimal digit as a character, lower-case, as `binascii.hexlify` emits. -/
def hexDigitChar (n : Nat) : Char :=
  if n < 10 then Char.ofNat (48 + n) else Char.ofNat (87 + n)

/-- Model of `binascii.hexlify`: two hex digits per byte. -/
def hexlify (bs : List Nat) : String :=
  String.mk (bs.map fun b => [hexDigitChar (b / 16), hexDigitChar (b % 16)]).flatten

/-- Numeric value of one hex-digit character, if it is one. -/
def hexDigitVal (c : Char) : Option Nat :=
  if 48 ≤ c.toNat ∧ c.toNat ≤ 57 then some (c.toNat - 48)
  else if 97 ≤ c.toNat ∧ c.toNat ≤ 102 then some (c.toNat - 87)
  else Option.none

/-- Model of `binascii.unhexlify` over a character list: pairs of hex digits
back to bytes; fails on an odd-length or non-hex input, as `binascii` raises. -/
def unhexChars : List Char → Option (List Nat)
  | [] => some []
  | c1 :: c2 :: rest =>
    (hexDigitVal c1).bind fun h1 =>
      (hexDigitVal c2).bind fun h2 =>
        (unhexChars rest).map fun bs => (16 * h1 + h2) :: bs
  | _ => Option.none

/-- Model of `binascii.unhexlify`. -/
def unhexlify (s : String) : Option (List Nat) :=
  unhexChars s.data

/-- Python `s.startswith(p)` over text. -/
def pyStartswith (s p : String) : Bool :=
  p.data.isPrefixOf s.data

/-- Python `s.endswith(p)` over text. -/
def pyEndswith (s p : String) : Bool :=
  p.data.isSuffixOf s.data

/-- Python `s[n:]` over text. -/
def pyDrop (s : String) (n : Nat) : String :=
  String.mk (s.data.drop n)

/-- Python `key in d` for a dict modelled as an association list. -/
def hasKey (d : List (String × PyValue)) (k : String) : Bool :=
  d.any fun p => p.1 == k

/-- Python `d[k] = v`: replace in place when the key exists, else append,
preserving insertion order. -/
def dictSet (d : List (String × PyValue)) (k : String) (v : PyValue) :
    List (String × PyValue) :=
  if hasKey d k then d.map fun p => if p.1 == k then (k, v) else p
  else d ++ [(k, v)]

/-- Python `d.update(m)`. -/
def dictUpdate (d m : List (String × PyValue)) : List (String × PyValue) :=
  m.foldl (fun acc kv => dictSet acc kv.1 kv.2) d

/-- A control ("support") parameter key: starts and ends with the underscore
sentinel (`key.startswith("_") and key.endswith("_")`). -/
def isControlKey (k : String) : Bool :=
  pyStartswith k "_" && pyEndswith k "_"

/-- The partition loop of `utils.Params.__init__`: walk the decoded mapping once,
sending each pair to the support (control) or callback side. Result is
(callback_params, support_params). -/
def partitionParams (d : List (String × PyValue)) :
    List (String × PyValue) × List (String × PyValue) :=
  d.foldl
    (fun acc kv =>
      if isControlKey kv.1 then (acc.1, acc.2 ++ [kv]) else (acc.1 ++ [kv], acc.2))
    ([], [])

/-- Keys of an association list. -/
def dictKeys (d : List (String × PyValue)) : List String :=
  d.map Prod.fst

/-- Hex digit value accepting both cases, as `urllib.unquote` does. -/
def hexValAny (c : Char) : Option Nat :=
  if 48 ≤ c.toNat ∧ c.toNat ≤ 57 then some (c.toNat - 48)
  else if 65 ≤ c.toNat ∧ c.toNat ≤ 70 then some (c.toNat - 55)
  else if 97 ≤ c.toNat ∧ c.toNat ≤ 102 then some (c.toNat - 87)
  else Option.none

/-- Python `text.split("=", 1)` when the separator occurs: the part before the
first `=` and the part after it. -/
def splitFirstEq : List Char → Option (List Char × List Char)
  | [] => Option.none
  | c :: rest =>
    if c = '=' then some ([], rest)
    else (splitFirstEq rest).map fun p => (c :: p.1, p.2)

/-- Concatenated map, used for the nested field-separator split. -/
def concatMap2 (f : α → List β) : List α → List β
  | [] => []
  | x :: xs => f x ++ concatMap2 f xs

/-- Python `text.split(sep)` for a one-character separator. -/
def splitChar (sep : Char) : List Char → List (List Char)
  | [] => [[]]
  | c :: rest =>
    let r := splitChar sep rest
    if c = sep then [] :: r
    else
      match r with
      | [] => [[c]]
      | h :: t => (c :: h) :: t

/-- One segment between percent signs, as `urllib.unquote` rewrites it: the
first two characters as a hex byte when possible, else the percent sign is
kept verbatim. -/
def unquotePiece (piece : List Char) : List Char :=
  match piece with
  | a :: b :: rest =>
    (match hexValAny a, hexValAny b with
     | some ha, some hb => Char.ofNat (16 * ha + hb) :: rest
     | _, _ => '%' :: piece)
  | _ => '%' :: piece

/-- Percent-decoding, modelled from `urllib.unquote`: split on percent signs
and rewrite each following segment. -/
def unquoteChars (s : List Char) : List Char :=
  match splitChar '%' s with
  | [] => []
  | first :: pieces => first ++ concatMap2 unquotePiece pieces

/-- `urllib.unquote(text.replace("+", " "))`, the per-field decoding used by
`urlparse.parse_qsl`. -/
def unquotePlus (s : String) : String :=
  String.mk (unquoteChars (s.data.map fun c => if c = '+' then ' ' else c))

/-- Model of `urlparse.parse_qsl(qs)` with default arguments: fields split on
`&` and `;`, each field split at its first `=`; fields without a `=` or with an
empty value are dropped; names and values are plus-and-percent decoded. -/
def parse_qsl (qs : String) : List (String × String) :=
  (concatMap2 (splitChar ';') (splitChar '&' qs.data)).filterMap
    fun nv =>
      match splitFirstEq nv with
      | Option.none => Option.none
      | some (n, v) =>
        if v.isEmpty then Option.none
        else some (unquotePlus (String.mk n), unquotePlus (String.mk v))

/-- The accumulation loop of `utils.parse_qs`: insert each pair in order,
raising on a key that is already present. -/
def parse_qs_loop : List (String × String) → List (String × String) →
    Except Exc (List (String × String))
  | [], params => .ok params
  | (k, v) :: rest, params =>
    if params.any fun p => p.1 == k then
      .error ⟨"ValueError", "encountered duplicate param field name: " ++ k⟩
    else parse_qs_loop rest (params ++ [(k, v)])

/-- `utils.parse_qs`: parse a form-encoded query string to a key-unique mapping
of text values, failing on a duplicate key. -/
def parse_qs (qs : String) : Except Exc (List (String × String)) :=
  parse_qs_loop (parse_qsl qs) []

/-- The process-wide dispatcher state (`Dispatcher.__init__` /
module globals of support.py). A queued delayed callback is modelled by the
outcome its invocation would produce. -/
structure Dispatcher where
  selector : String
  handle : Int
  params : List (String × PyValue)
  callback_params : List (String × PyValue)
  metacalls : List (Except Exc Unit)

/-- `Dispatcher.__init__`: selector "root", handle -1, empty parameter sets,
empty delayed-callback queue. -/
def Dispatcher.init : Dispatcher :=
  ⟨"root", -1, [], [], []⟩

/-- `Dispatcher.reset`: restore the selector, clear the delayed-callback queue
and the parameter dict. -/
def Dispatcher.reset (st : Dispatcher) : Dispatcher :=
  { st with selector := "root", metacalls := [], params := [] }

/-- `Dispatcher.register_delayed`: append one (func, args, kwargs) entry. -/
def Dispatcher.register_delayed (st : Dispatcher) (call : Except Exc Unit) :
    Dispatcher :=
  { st with metacalls := st.metacalls ++ [call] }

/-- The tail of `Dispatcher.parse_params`: merge the decoded mapping into the
process-wide params dict and rebuild the callback partition from it. -/
def Dispatcher.withParams (st : Dispatcher) (d : List (String × PyValue)) :
    Dispatcher :=
  let params := dictUpdate st.params d
  { st with
      params := params,
      callback_params := params.filter fun p => !(isControlKey p.1) }

/-- `Dispatcher.parse_params`: a raw query starting with the `_pickle_=` token
is hex-decoded and deserialized; anything else goes through `parse_qs`. The
decoded mapping is merged into `params` and the callback partition rebuilt. -/
def Dispatcher.parse_params (st : Dispatcher) (raw_params : String) :
    Except Exc Dispatcher :=
  if pyStartswith raw_params "_pickle_=" then
    match (unhexlify (pyDrop raw_params 9)).bind unpickleVal with
    | some (.vdict d) => .ok (st.withParams d)
    | some _ => .error ⟨"TypeError", "params update requires a mapping"⟩
    | Option.none => .error ⟨"ValueError", "malformed pickled params"⟩
  else
    match parse_qs raw_params with
    | .error e => .error e
    | .ok qsd => .ok (st.withParams (qsd.map fun p => (p.1, PyValue.vstr p.2)))

/-- Model of Python `int(text)` restricted to optionally signed decimals. -/
def parseDigits : List Char → Option Nat
  | [] => Option.none
  | cs => go cs 0
where
  go : List Char → Nat → Option Nat
    | [], acc => some acc
    | c :: rest, acc =>
      if 48 ≤ c.toNat ∧ c.toNat ≤ 57 then go rest (acc * 10 + (c.toNat - 48))
      else Option.none

/-- Python `int(text)` for plain decimal literals. -/
def pyInt (s : String) : Option Int :=
  match s.data with
  | '-' :: rest => (parseDigits rest).map fun n => -(n : Int)
  | cs => (parseDigits cs).map fun n => (n : Int)

/-- Break a character list at the first occurrence of `c`: the part before it
and, when found, the part after it. -/
def breakAt (c : Char) : List Char → List Char × Option (List Char)
  | [] => ([], Option.none)
  | a :: rest =>
    if a = c then ([], some rest)
    else
      let r := breakAt c rest
      (a :: r.1, r.2)

/-- Locate the `://` scheme separator: the scheme and what follows it. -/
def splitScheme : List Char → Option (List Char × List Char)
  | [] => Option.none
  | ':' :: '/' :: '/' :: rest => some ([], rest)
  | c :: rest => (splitScheme rest).map fun p => (c :: p.1, p.2)

/-- The components of a split URL. -/
structure UrlParts where
  scheme : String
  netloc : String
  path : String
  query : String
deriving DecidableEq, Repr

/-- Model of `urlparse.urlsplit` for the URL shapes this framework handles:
`scheme://netloc/path?query` (fragments not used). -/
def urlsplit (url : String) : UrlParts :=
  match splitScheme url.data with
  | Option.none =>
    let (p, q) := breakAt '?' url.data
    ⟨"", "", String.mk p, String.mk (q.getD [])⟩
  | some (scheme, rest) =>
    match breakAt '/' rest with
    | (netloc, Option.none) =>
      let (nl, q) := breakAt '?' netloc
      ⟨String.mk scheme, String.mk nl, "", String.mk (q.getD [])⟩
    | (netloc, some after) =>
      let (p, q) := breakAt '?' after
      ⟨String.mk scheme, String.mk netloc, String.mk ('/' :: p), String.mk (q.getD [])⟩

/-- Python `s.split(sep, 1)[-1]`: everything after the first separator, or the
whole string when the separator is absent. -/
def splitOnceRem (s : String) (c : Char) : String :=
  match breakAt c s.data with
  | (_, some rest) => String.mk rest
  | (whole, Option.none) => String.mk whole

/-- The host's argument vector: `sys.argv[0]`, `sys.argv[1]`, `sys.argv[2]`. -/
structure Argv where
  argv0 : String
  argv1 : String
  argv2 : String

/-- `Dispatcher.parse_sysargs`: reject non-plugin invocations, split
`argv[0] + argv[2]` as a URL, derive the selector (empty route becomes
"root"), the integer handle, and decode the raw query when present. -/
def Dispatcher.parse_sysargs (st : Dispatcher) (argv : Argv) :
    Except Exc Dispatcher :=
  if !(pyStartswith argv.argv0 "plugin://") then
    .error ⟨"RuntimeError", "Only plugin:// paths are supported: not " ++ argv.argv0⟩
  else
    let u := urlsplit (argv.argv0 ++ argv.argv2)
    let route := splitOnceRem u.path '/'
    let selector := if route.isEmpty then "root" else route
    match pyInt argv.argv1 with
    | Option.none =>
      .error ⟨"ValueError", "invalid literal for int: " ++ argv.argv1⟩
    | some h =>
      let st1 := { st with selector := selector, handle := h }
      if u.query.isEmpty then .ok st1 else st1.parse_params u.query

/-- The observable outcome of one `Dispatcher.run_metacalls` pass: the state it
leaves behind, the queue entries it invoked in order, and the exceptions it
caught and logged. -/
structure MetacallsRun where
  state : Dispatcher
  executed : List (Except Exc Unit)
  logged : List Exc

/-- `Dispatcher.run_metacalls`: when the queue is non-empty, invoke every entry
in insertion order; an entry that raises is logged and the pass continues. The
queue itself is left untouched. -/
def Dispatcher.run_metacalls (st : Dispatcher) : MetacallsRun :=
  if st.metacalls.isEmpty then ⟨st, [], []⟩
  else
    ⟨st, st.metacalls,
     st.metacalls.filterMap fun c =>
       match c with
       | .error e => some e
       | .ok _ => Option.none⟩

/-- The outcome of one `Dispatcher.dispatch` call: an exception that escaped
`dispatch` itself, or a caught exception surfaced as exactly one notification
(title = exception class name, message = exception message), or success
followed by the delayed-callback pass. -/
inductive DispatchResult where
  | raised : Exc → DispatchResult
  | notified : String → String → Dispatcher → DispatchResult
  | completed : MetacallsRun → DispatchResult

/-- The body of `dispatch`'s try block: resolve the selector in the registry
(a missing route raises a key error), then run the controller instantiation,
callback execution and result processing — modelled together by the
`lookup`-provided handler function, which may raise anything and may mutate
dispatcher state. -/
def Dispatcher.route_body (st : Dispatcher)
    (lookup : String → Option (Dispatcher → Except Exc Dispatcher)) :
    Except Exc Dispatcher :=
  match lookup st.selector with
  | Option.none => Except.error (⟨"KeyError", st.selector⟩ : Exc)
  | some run => run st

/-- `Dispatcher.dispatch`: `parse_sysargs` runs before the try block; the
route lookup, controller instantiation, callback execution and result
processing run inside it, and on success the delayed-callback queue is
drained. -/
def Dispatcher.dispatch (st0 : Dispatcher) (argv : Argv)
    (lookup : String → Option (Dispatcher → Except Exc Dispatcher)) :
    DispatchResult :=
  match st0.parse_sysargs argv with
  | .error e => .raised e
  | .ok st =>
    match st.route_body lookup with
    | .error e => .notified e.name e.msg st
    | .ok st2 => .completed st2.run_metacalls

/-- Python `text.lower()`. -/
def pyToLower (s : String) : String :=
  String.mk (s.data.map Char.toLower)

/-- Python `text.replace(old, new)` for one-character patterns. -/
def pyReplaceChar (s : String) (a b : Char) : String :=
  String.mk (s.data.map fun c => if c = a then b else c)

/-- Python `text.strip(ch)`: remove every leading and trailing occurrence. -/
def pyStrip (s : String) (c : Char) : String :=
  String.mk (((s.data.dropWhile fun x => x = c).reverse.dropWhile fun x => x = c).reverse)

/-- The canonical-path derivation of `Dispatcher.register`: `"root"` for a
callback whose bare name lower-cases to "root", else
`"{module.strip("_").replace(".", "/")}/{name}".lower()`. -/
def register_path (module callbackName : String) : String :=
  if pyToLower callbackName == "root" then pyToLower callbackName
  else pyToLower (pyReplaceChar (pyStrip module '_') '.' '/' ++ "/" ++ callbackName)

/-- A registered route as `build_path` consumes it: its canonical path and the
reflected argument names of its callback (first entry is the implicit
controller argument). -/
structure RouteRec where
  path : String
  argNames : List String

/-- `Route.args_to_kwargs`: zip the callback's argument names (dropping the
implicit first) with the positional values and merge into the mapping. -/
def RouteRec.args_to_kwargs (route : RouteRec) (args : List PyValue)
    (kwargs : List (String × PyValue)) : List (String × PyValue) :=
  dictUpdate kwargs ((route.argNames.drop 1).zip args)

/-- The opaque query encoding of `build_path`:
`"_pickle_=" + hexlify(pickle.dumps(query))`. -/
def encode_query (query : List (String × PyValue)) : String :=
  "_pickle_=" ++ hexlify (serVal (.vdict query))

/-- Model of `urlparse.urlunsplit` (no fragment). -/
def urlunsplit (scheme netloc path query : String) : String :=
  let url :=
    if !netloc.isEmpty then
      "//" ++ netloc ++
        (if path.isEmpty then ""
         else if pyStartswith path "/" then path else "/" ++ path)
    else path
  let url2 := if !scheme.isEmpty then scheme ++ ":" ++ url else url
  if !query.isEmpty then url2 ++ "?" ++ query else url2

/-- `support.build_path`: positional args are rebound into the given query
mapping; when any extra_query keyword is present the query is replaced by a
copy of the dispatcher params updated with extra_query; a non-empty query is
pickle-encoded; the result is a plugin URL for the route's path. -/
def build_path (plugin_id : String) (route : RouteRec) (args : List PyValue)
    (query : Option (List (String × PyValue)))
    (extra_query : List (String × PyValue)) (disp : Dispatcher) :
    Except Exc String :=
  match
    (if !args.isEmpty then
       match query with
       | Option.none =>
         Except.error (⟨"AttributeError", "NoneType has no update"⟩ : Exc)
       | some q => .ok (some (route.args_to_kwargs args q))
     else .ok query) with
  | .error e => .error e
  | .ok query1 =>
    let query2 :=
      if !extra_query.isEmpty then some (dictUpdate disp.params extra_query)
      else query1
    let qstring :=
      match query2 with
      | some q => if !q.isEmpty then encode_query q else ""
      | Option.none => ""
    .ok (urlunsplit "plugin" plugin_id route.path qstring)

/-- A sealed directory entry as `listitem.close()` returns it:
(target path, opaque listitem blob, is-folder flag). -/
structure Sealed where
  target : String
  blob : String
  isfolder : Bool
deriving DecidableEq, Repr

/-- `Route.__add_listitems` (api.py): reject a falsy raw result outright, drop
falsy placeholders, hand the sealed tuples to the host in one batch, and
classify the listing as folder-type when the folder count exceeds half the
batch (Python 2 floor division). Returns the batch and the classification. -/
def add_listitems (raw_listitems : List (Option Sealed)) :
    Except Exc (List Sealed × Bool) :=
  if raw_listitems.isEmpty then .error ⟨"RuntimeError", "No listitems found"⟩
  else
    let listitems := raw_listitems.filterMap id
    let folder_counter := (listitems.filter fun li => li.isfolder).length
    .ok (listitems, decide (listitems.length / 2 < folder_counter))

/-- A playable host list item: display label and playback path. -/
structure ListItem where
  label : String
  path : String
deriving DecidableEq, Repr

/-- One element of a Resolver's returned sequence: a url, or a (url, title)
pair. -/
inductive PlaySrc where
  | u : String → PlaySrc
  | ut : String → String → PlaySrc
deriving DecidableEq, Repr

/-- The playlist-population loop of `Resolver.__create_playlist`: one list item
per url, labelled "title Part i" with 1-based numbering; a (url, title) pair
replaces the running title from that element on. -/
def playlistLoop (title : String) (count : Nat) : List PlaySrc → List ListItem
  | [] => []
  | .u url :: rest =>
    ⟨title ++ " Part " ++ toString count, url⟩ :: playlistLoop title (count + 1) rest
  | .ut url t :: rest =>
    ⟨t ++ " Part " ++ toString count, url⟩ :: playlistLoop t (count + 1) rest

/-- `Resolver.__create_playlist`: append one item per url to the host video
playlist and return the playlist's first element (`playlist[0]`, an index
error when the playlist stays empty). -/
def create_playlist (selfTitle : String) (urls : List PlaySrc)
    (pl : List ListItem) : Except Exc (List ListItem × ListItem) :=
  match pl ++ playlistLoop selfTitle 1 urls with
  | [] => .error ⟨"IndexError", "playlist index out of range"⟩
  | x :: rest => .ok (x :: rest, x)

/-- A Resolver callback result, by the shapes `Resolver.__send_to_kodi`
distinguishes: text, a list/tuple of urls, an already-built list item, or any
other value carrying only its truthiness. -/
inductive Resolved where
  | rstr : String → Resolved
  | rlist : List PlaySrc → Resolved
  | rlistitem : ListItem → Resolved
  | rother : Bool → Resolved
deriving DecidableEq, Repr

/-- Python truthiness of a Resolver result. -/
def pyTruthyResolved : Resolved → Bool
  | .rstr s => !s.isEmpty
  | .rlist l => !l.isEmpty
  | .rlistitem _ => true
  | .rother b => b

/-- `Resolver.__send_to_kodi`: dispatch on the result's shape — text becomes a
single playable item, a list/tuple builds a playlist and plays its head, a
list item passes through unchanged, any other truthy value raises the
invalid-url error and any other falsy value raises the no-url error. Returns
the final playlist and the item given to `setResolvedUrl`. -/
def send_to_kodi (selfTitle : String) (pl : List ListItem) :
    Resolved → Except Exc (List ListItem × ListItem)
  | .rstr s => .ok (pl, ⟨"", s⟩)
  | .rlist urls => create_playlist selfTitle urls pl
  | .rlistitem li => .ok (pl, li)
  | .rother truthy =>
    if truthy then .error ⟨"ValueError", "resolver returned invalid url"⟩
    else .error ⟨"ValueError", "resolver failed to return url"⟩

/-- The claimed canonical-path rule (C4's reading of the spec): leading
underscores stripped, trailing underscores preserved. -/
def stripLeadingChar (s : String) (c : Char) : String :=
  String.mk (s.data.dropWhile fun x => x = c)

/-- Removal of trailing occurrences of a character, written by recursion on the
list rather than through reversal. -/
def dropTrailingChar (c : Char) : List Char → List Char
  | [] => []
  | a :: rest =>
    let r := dropTrailingChar c rest
    if r.isEmpty ∧ a = c then [] else a :: r

/-- Canonical path as the claim states it: scope path with only the leading
underscores stripped, dots to separators, all lower-cased; "root" reserved. -/
def register_path_claim (module callbackName : String) : String :=
  if pyToLower callbackName == "root" then "root"
  else pyToLower (pyReplaceChar (stripLeadingChar module '_') '.' '/' ++ "/" ++ callbackName)

/-- Canonical path as amended: both leading and trailing underscores of the
module path are stripped before dots become separators. -/
def register_path_spec (module callbackName : String) : String :=
  if pyToLower callbackName == "root" then "root"
  else pyToLower (pyReplaceChar
    (String.mk (dropTrailingChar '_' (stripLeadingChar module '_').data)) '.' '/'
    ++ "/" ++ callbackName)

/-- The url component of a playlist source element. -/
def srcUrl : PlaySrc → String
  | .u url => url
  | .ut url _ => url

theorem decNat_encNat (n : Nat) (rest : List Nat) :
    decNat (encNat n ++ rest) = some (n, rest) := by
  induction n with
  | zero => rfl
  | succ k ih =>
    simp only [encNat, List.replicate_succ, List.cons_append, decNat, List.append_eq] at *
    rw [ih]
    rfl

theorem decChars_chars (cs : List Char) (rest : List Nat) :
    decChars cs.length ((cs.map fun c => encNat c.toNat).flatten ++ rest) =
      some (cs, rest) := by
  induction cs with
  | nil => rfl
  | cons c cs ih =>
    simp only [List.map_cons, List.flatten_cons, List.length_cons, decChars,
      List.append_assoc, decNat_encNat, Option.some_bind]
    rw [ih]
    simp [Char.ofNat_toNat]

theorem decStr_serStr (s : String) (rest : List Nat) :
    decStr (serStr s ++ rest) = some (s, rest) := by
  simp only [decStr, serStr, List.append_assoc, decNat_encNat, Option.some_bind,
    decChars_chars]
  rfl

mutual

theorem decVal_serVal : ∀ (v : PyValue) (fuel : Nat), vdepth v ≤ fuel →
    ∀ rest : List Nat, decVal fuel (serVal v ++ rest) = some (v, rest)
  | v, 0, h, _ => absurd h (by cases v <;> simp [vdepth])
  | .vnone, _ + 1, _, rest => by simp [serVal, decVal]
  | .vbool b, _ + 1, _, rest => by cases b <;> simp [serVal, decVal]
  | .vint i, _ + 1, _, rest => by
    rcases lt_or_le i 0 with hi | hi
    · simp [serVal, decVal, hi, decNat_encNat, abs_of_neg hi]
    · simp [serVal, decVal, Int.not_lt.mpr hi, decNat_encNat]
      omega
  | .vstr s, _ + 1, _, rest => by simp [serVal, decVal, decStr_serStr]
  | .vlist vs, f + 1, h, rest => by
    have hd : vsdepth vs ≤ f := by simp [vdepth] at h; omega
    simp [serVal, decVal, decNat_encNat, decVals_serVals vs f hd rest]
  | .vdict ps, f + 1, h, rest => by
    have hd : psdepth ps ≤ f := by simp [vdepth] at h; omega
    simp [serVal, decVal, decNat_encNat, decPairs_serPairs ps f hd rest]

theorem decVals_serVals : ∀ (vs : List PyValue) (fuel : Nat), vsdepth vs ≤ fuel →
    ∀ rest : List Nat, decVals fuel vs.length (serVals vs ++ rest) = some (vs, rest)
  | [], fuel, _, rest => by simp [serVals, decVals]
  | v :: tl, fuel, h, rest => by
    have h1 : vdepth v ≤ fuel := by simp [vsdepth] at h; omega
    have h2 : vsdepth tl ≤ fuel := by simp [vsdepth] at h; omega
    simp [serVals, decVals, List.append_assoc,
      decVal_serVal v fuel h1, decVals_serVals tl fuel h2 rest]

theorem decPairs_serPairs : ∀ (ps : List (String × PyValue)) (fuel : Nat),
    psdepth ps ≤ fuel →
    ∀ rest : List Nat, decPairs fuel ps.length (serPairs ps ++ rest) = some (ps, rest)
  | [], fuel, _, rest => by simp [serPairs, decPairs]
  | (k, v) :: tl, fuel, h, rest => by
    have h1 : vdepth v ≤ fuel := by simp [psdepth] at h; omega
    have h2 : psdepth tl ≤ fuel := by simp [psdepth] at h; omega
    simp [serPairs, decPairs, List.append_assoc, decStr_serStr,
      decVal_serVal v fuel h1, decPairs_serPairs tl fuel h2 rest]

end

theorem encNat_bytes (n : Nat) : ∀ b ∈ encNat n, b < 256 := by
  intro b hb
  simp only [encNat, List.mem_append, List.mem_replicate, List.mem_singleton] at hb
  rcases hb with ⟨_, rfl⟩ | rfl <;> omega

theorem serStr_bytes (s : String) : ∀ b ∈ serStr s, b < 256 := by
  intro b hb
  simp only [serStr, List.mem_append, List.mem_flatten, List.mem_map] at hb
  rcases hb with hb | ⟨l, ⟨c, _, rfl⟩, hbl⟩
  · exact encNat_bytes _ _ hb
  · exact encNat_bytes _ _ hbl

mutual

theorem serVal_bytes : ∀ (v : PyValue), ∀ b ∈ serVal v, b < 256
  | .vnone, b, hb => by simp [serVal] at hb; omega
  | .vbool bo, b, hb => by
    cases bo <;> simp [serVal] at hb <;> rcases hb with rfl | rfl <;> omega
  | .vint i, b, hb => by
    simp only [serVal, List.mem_append, List.mem_cons, List.not_mem_nil,
      or_false] at hb
    rcases hb with (rfl | hb) | hb
    · omega
    · split at hb <;> omega
    · exact encNat_bytes _ _ hb
  | .vstr s, b, hb => by
    simp only [serVal, List.mem_cons] at hb
    rcases hb with rfl | hb
    · omega
    · exact serStr_bytes _ _ hb
  | .vlist vs, b, hb => by
    simp only [serVal, List.mem_cons, List.mem_append] at hb
    rcases hb with rfl | hb | hb
    · omega
    · exact encNat_bytes _ _ hb
    · exact serVals_bytes vs b hb
  | .vdict ps, b, hb => by
    simp only [serVal, List.mem_cons, List.mem_append] at hb
    rcases hb with rfl | hb | hb
    · omega
    · exact encNat_bytes _ _ hb
    · exact serPairs_bytes ps b hb

theorem serVals_bytes : ∀ (vs : List PyValue), ∀ b ∈ serVals vs, b < 256
  | [], b, hb => by simp [serVals] at hb
  | v :: tl, b, hb => by
    simp only [serVals, List.mem_append] at hb
    rcases hb with hb | hb
    · exact serVal_bytes v b hb
    · exact serVals_bytes tl b hb

theorem serPairs_bytes : ∀ (ps : List (String × PyValue)), ∀ b ∈ serPairs ps, b < 256
  | [], b, hb => by simp [serPairs] at hb
  | (k, v) :: tl, b, hb => by
    simp only [serPairs, List.mem_append] at hb
    rcases hb with (hb | hb) | hb
    · exact serStr_bytes k b hb
    · exact serVal_bytes v b hb
    · exact serPairs_bytes tl b hb

end

mutual

theorem vdepth_le_length : ∀ v : PyValue, vdepth v ≤ (serVal v).length
  | .vnone => by simp [vdepth, serVal]
  | .vbool b => by simp [vdepth, serVal]
  | .vint i => by simp [vdepth, serVal]
  | .vstr s => by simp [vdepth, serVal]
  | .vlist vs => by
    have := vsdepth_le_length vs
    simp only [vdepth, serVal, List.length_cons, List.length_append]
    omega
  | .vdict ps => by
    have := psdepth_le_length ps
    simp only [vdepth, serVal, List.length_cons, List.length_append]
    omega

theorem vsdepth_le_length : ∀ vs : List PyValue, vsdepth vs ≤ (serVals vs).length
  | [] => by simp [vsdepth, serVals]
  | v :: tl => by
    have h1 := vdepth_le_length v
    have h2 := vsdepth_le_length tl
    simp only [vsdepth, serVals, List.length_append]
    omega

theorem psdepth_le_length : ∀ ps : List (String × PyValue),
    psdepth ps ≤ (serPairs ps).length
  | [] => by simp [psdepth, serPairs]
  | (k, v) :: tl => by
    have h1 := vdepth_le_length v
    have h2 := psdepth_le_length tl
    simp only [psdepth, serPairs, List.length_append]
    omega

end

theorem unpickleVal_serVal (v : PyValue) : unpickleVal (serVal v) = some v := by
  have h : decVal (serVal v).length (serVal v ++ []) = some (v, []) :=
    decVal_serVal v (serVal v).length (vdepth_le_length v) []
  rw [List.append_nil] at h
  simp [unpickleVal, h]

theorem hexDigitVal_hexDigitChar : ∀ n, n < 16 → hexDigitVal (hexDigitChar n) = some n := by
  decide

theorem unhexlify_hexlify (bs : List Nat) (h : ∀ b ∈ bs, b < 256) :
    unhexlify (hexlify bs) = some bs := by
  induction bs with
  | nil => rfl
  | cons b tl ih =>
    have hb : b < 256 := h b (List.mem_cons_self b tl)
    have htl : ∀ x ∈ tl, x < 256 := fun x hx => h x (List.mem_cons_of_mem b hx)
    have hdiv : b / 16 < 16 := by omega
    have hmod : b % 16 < 16 := by omega
    simp only [unhexlify, hexlify, List.map_cons, List.flatten_cons, List.cons_append,
      List.nil_append, List.append_eq, unhexChars, hexDigitVal_hexDigitChar _ hdiv,
      hexDigitVal_hexDigitChar _ hmod, Option.some_bind]
    simp only [unhexlify, hexlify] at ih
    rw [ih htl]
    have : 16 * (b / 16) + b % 16 = b := by omega
    simp [this]

theorem dictUpdate_disjoint (m : List (String × PyValue)) :
    ∀ acc, (∀ kv ∈ m, hasKey acc kv.1 = false) → (m.map Prod.fst).Nodup →
      dictUpdate acc m = acc ++ m := by
  induction m with
  | nil => intro acc _ _; simp [dictUpdate]
  | cons kv tl ih =>
    intro acc hdisj hnodup
    obtain ⟨k, v⟩ := kv
    have hk : hasKey acc k = false := hdisj (k, v) (List.mem_cons_self _ _)
    have hstep : dictSet acc k v = acc ++ [(k, v)] := by
      simp [dictSet, hk]
    have hnd : (tl.map Prod.fst).Nodup := (List.nodup_cons.mp (by simpa using hnodup)).2
    have hknotin : k ∉ tl.map Prod.fst := (List.nodup_cons.mp (by simpa using hnodup)).1
    have hdisj2 : ∀ kv ∈ tl, hasKey (acc ++ [(k, v)]) kv.1 = false := by
      intro kv2 hkv2
      have h1 : hasKey acc kv2.1 = false := hdisj kv2 (List.mem_cons_of_mem _ hkv2)
      have h2 : kv2.1 ≠ k := by
        intro hkeq
        exact hknotin (hkeq ▸ List.mem_map_of_mem Prod.fst hkv2)
      simp [hasKey, List.any_append] at h1 ⊢
      exact ⟨h1, fun hkeq => absurd hkeq.symm h2⟩
    calc dictUpdate acc ((k, v) :: tl)
        = dictUpdate (dictSet acc k v) tl := by simp [dictUpdate]
      _ = dictUpdate (acc ++ [(k, v)]) tl := by rw [hstep]
      _ = (acc ++ [(k, v)]) ++ tl := ih _ hdisj2 hnd
      _ = acc ++ ((k, v) :: tl) := by simp

theorem dictUpdate_nil (m : List (String × PyValue)) (h : (m.map Prod.fst).Nodup) :
    dictUpdate [] m = m := by
  simpa using dictUpdate_disjoint m [] (by intro kv _; rfl) h

theorem dictSet_length (d : List (String × PyValue)) (k : String) (v : PyValue) :
    d.length ≤ (dictSet d k v).length := by
  unfold dictSet
  split <;> simp

theorem dictUpdate_length (m : List (String × PyValue)) :
    ∀ d, d.length ≤ (dictUpdate d m).length := by
  induction m with
  | nil => intro d; simp [dictUpdate]
  | cons kv tl ih =>
    intro d
    have h1 := dictSet_length d kv.1 kv.2
    have h2 := ih (dictSet d kv.1 kv.2)
    simpa [dictUpdate] using le_trans h1 h2

theorem partitionParams_spec (d : List (String × PyValue)) :
    partitionParams d =
      (d.filter fun kv => !(isControlKey kv.1), d.filter fun kv => isControlKey kv.1) := by
  have main : ∀ (l : List (String × PyValue)) (cb sp : List (String × PyValue)),
      l.foldl
        (fun acc kv =>
          if isControlKey kv.1 then (acc.1, acc.2 ++ [kv]) else (acc.1 ++ [kv], acc.2))
        (cb, sp) =
      (cb ++ l.filter fun kv => !(isControlKey kv.1),
       sp ++ l.filter fun kv => isControlKey kv.1) := by
    intro l
    induction l with
    | nil => intro cb sp; simp
    | cons kv tl ih =>
      intro cb sp
      by_cases hc : isControlKey kv.1 = true
      · simp [List.foldl_cons, hc, ih]
      · simp only [Bool.not_eq_true] at hc
        simp [List.foldl_cons, hc, ih]
  simpa [partitionParams] using main d [] []

theorem parse_qs_loop_ok (l : List (String × String)) :
    ∀ params, (((params ++ l).map Prod.fst).Nodup) →
      parse_qs_loop l params = .ok (params ++ l) := by
  induction l with
  | nil => intro params _; simp [parse_qs_loop]
  | cons kv tl ih =>
    intro params hnd
    obtain ⟨k, v⟩ := kv
    have hnd2 : (params.map Prod.fst ++ (k :: tl.map Prod.fst)).Nodup := by
      simpa using hnd
    have hknotin : k ∉ params.map Prod.fst := by
      intro hk
      exact (List.disjoint_of_nodup_append hnd2) hk (List.mem_cons_self _ _)
    have hany : (params.any fun p => p.1 == k) = false := by
      simp only [List.any_eq_false]
      intro p hp hpk
      exact hknotin ((eq_of_beq hpk) ▸ List.mem_map_of_mem Prod.fst hp)
    have hstep : (params ++ (k, v) :: tl) = (params ++ [(k, v)]) ++ tl := by simp
    simp only [parse_qs_loop, hany, Bool.false_eq_true, if_false]
    rw [ih (params ++ [(k, v)]) (by rw [← hstep]; exact hnd), ← hstep]

theorem parse_qs_loop_err (l : List (String × String)) :
    ∀ params, ((params.map Prod.fst).Nodup) →
      ¬ (((params ++ l).map Prod.fst).Nodup) →
      ∃ k, parse_qs_loop l params =
        .error ⟨"ValueError", "encountered duplicate param field name: " ++ k⟩ := by
  induction l with
  | nil => intro params hnd hcontra; exact absurd (by simpa using hnd) hcontra
  | cons kv tl ih =>
    intro params hnd hdup
    obtain ⟨k, v⟩ := kv
    by_cases hk : (params.any fun p => p.1 == k) = true
    · exact ⟨k, by simp [parse_qs_loop, hk]⟩
    · have hany : (params.any fun p => p.1 == k) = false := by
        cases h : (params.any fun p => p.1 == k) with
        | true => exact absurd h hk
        | false => rfl
      have hknotin : k ∉ params.map Prod.fst := by
        intro hkin
        simp only [List.any_eq_false] at hany
        obtain ⟨p, hp, hpk⟩ := List.mem_map.mp hkin
        exact absurd (by simpa using hpk) (by simpa using hany p hp)
      have hnd2 : ((params ++ [(k, v)]).map Prod.fst).Nodup := by
        simp only [List.map_append, List.map_cons, List.map_nil]
        exact List.Nodup.append hnd (by simp)
          (by simpa [List.disjoint_singleton] using hknotin)
      have hdup2 : ¬ ((((params ++ [(k, v)]) ++ tl).map Prod.fst).Nodup) := by
        intro hcontra
        exact hdup (by simpa using hcontra)
      obtain ⟨k2, hk2⟩ := ih (params ++ [(k, v)]) hnd2 hdup2
      exact ⟨k2, by simp only [parse_qs_loop, hany, Bool.false_eq_true, if_false]; exact hk2⟩

theorem isPrefixOf_self_append : ∀ (l1 l2 : List Char), l1.isPrefixOf (l1 ++ l2) = true
  | [], _ => by simp [List.isPrefixOf]
  | c :: tl, l2 => by
    simp [List.isPrefixOf, isPrefixOf_self_append tl l2]

theorem pyStartswith_append (p t : String) : pyStartswith (p ++ t) p = true := by
  simp only [pyStartswith, String.data_append]
  exact isPrefixOf_self_append _ _

theorem pyDrop_append (p t : String) : pyDrop (p ++ t) p.data.length = t := by
  simp only [pyDrop, String.data_append p t, List.drop_left]

theorem mem_keys_filter (p : String → Bool) (d : List (String × PyValue)) (k : String) :
    (k ∈ (d.filter fun kv => p kv.1).map Prod.fst) ↔
      (k ∈ d.map Prod.fst ∧ p k = true) := by
  constructor
  · intro h
    obtain ⟨kv, hkv, rfl⟩ := List.mem_map.mp h
    obtain ⟨hmem, hp⟩ := List.mem_filter.mp hkv
    exact ⟨List.mem_map_of_mem Prod.fst hmem, hp⟩
  · intro ⟨hmem, hp⟩
    obtain ⟨kv, hkv, rfl⟩ := List.mem_map.mp hmem
    exact List.mem_map_of_mem Prod.fst (List.mem_filter.mpr ⟨hkv, hp⟩)

theorem dropTrailingChar_append (c : Char) (ys : List Char) (a : Char) :
    dropTrailingChar c (ys ++ [a]) =
      if a = c then dropTrailingChar c ys else ys ++ [a] := by
  induction ys with
  | nil => by_cases h : a = c <;> simp [dropTrailingChar, h]
  | cons y tl ih =>
    by_cases h : a = c
    · simp only [h, if_true] at ih ⊢
      simp only [List.cons_append, dropTrailingChar, List.append_eq, ih]
    · simp only [h, if_false] at ih ⊢
      simp only [List.cons_append, dropTrailingChar, List.append_eq, ih]
      simp

theorem reverse_dropWhile_reverse (c : Char) (l : List Char) :
    (l.reverse.dropWhile fun x => x = c).reverse = dropTrailingChar c l := by
  induction l using List.reverseRecOn with
  | nil => rfl
  | append_singleton ys a ih =>
    rw [dropTrailingChar_append]
    by_cases h : a = c <;>
      simp [List.reverse_append, List.dropWhile_cons, h, ih]

theorem pyStrip_eq (s : String) (c : Char) :
    pyStrip s c = String.mk (dropTrailingChar c (stripLeadingChar s c).data) := by
  simp [pyStrip, stripLeadingChar, reverse_dropWhile_reverse]

theorem playlistLoop_paths : ∀ (urls : List PlaySrc) (t : String) (c : Nat),
    (playlistLoop t c urls).map ListItem.path = urls.map srcUrl
  | [], _, _ => rfl
  | .u url :: rest, t, c => by
    simp [playlistLoop, srcUrl, playlistLoop_paths rest t (c + 1)]
  | .ut url t2 :: rest, t, c => by
    simp [playlistLoop, srcUrl, playlistLoop_paths rest t2 (c + 1)]

theorem dictSet_pos (d : List (String × PyValue)) (k : String) (v : PyValue) :
    1 ≤ (dictSet d k v).length := by
  unfold dictSet
  split
  · next hk =>
    simp only [List.length_map]
    cases d with
    | nil => simp [hasKey] at hk
    | cons a tl => simp
  · simp

theorem dictUpdate_ne_nil (d extra : List (String × PyValue)) (h : extra ≠ []) :
    dictUpdate d extra ≠ [] := by
  cases extra with
  | nil => exact absurd rfl h
  | cons kv tl =>
    have h1 := dictSet_pos d kv.1 kv.2
    have h2 := dictUpdate_length tl (dictSet d kv.1 kv.2)
    have : 1 ≤ (dictUpdate d (kv :: tl)).length := by
      simpa [dictUpdate] using le_trans h1 h2
    intro hc
    rw [hc] at this
    simp at this

/-- C1 counterexample: an invocation whose scheme is not `plugin://` makes
`parse_sysargs` raise, and because `parse_sysargs` runs before `dispatch`'s
try block the exception propagates out of `dispatch` instead of being caught
and surfaced as a notification. -/
theorem C1_counterexample :
    Dispatcher.init.dispatch ⟨"script://x", "1", ""⟩ (fun _ => Option.none) =
      .raised ⟨"RuntimeError", "Only plugin:// paths are supported: not script://x"⟩ := by
  rfl

/-- C1 amended: exceptions raised inside the try block — route resolution,
controller instantiation, handler execution and result processing — are caught
at dispatch's top level and surfaced as exactly one notification carrying the
exception class name and message; but an exception raised by invocation
parsing (`parse_sysargs`) propagates out of `dispatch` uncaught. -/
theorem C1_dispatch_containment (argv : Argv)
    (lookup : String → Option (Dispatcher → Except Exc Dispatcher))
    (st0 : Dispatcher) :
    (∀ e, st0.parse_sysargs argv = .error e →
      st0.dispatch argv lookup = .raised e) ∧
    (∀ st e, st0.parse_sysargs argv = .ok st →
      st.route_body lookup = .error e →
      st0.dispatch argv lookup = .notified e.name e.msg st) ∧
    (∀ st st2, st0.parse_sysargs argv = .ok st →
      st.route_body lookup = .ok st2 →
      st0.dispatch argv lookup = .completed st2.run_metacalls) := by
  refine ⟨fun e he => ?_, fun st e hp hb => ?_, fun st st2 hp hb => ?_⟩
  · simp [Dispatcher.dispatch, he]
  · simp [Dispatcher.dispatch, hp, hb]
  · simp [Dispatcher.dispatch, hp, hb]

/-- C1 witness: a failing handler on a well-formed invocation yields exactly
one notification with the exception class name and message; a malformed
invocation makes dispatch itself raise. -/
theorem C1_dispatch_containment_witness :
    Dispatcher.init.dispatch ⟨"plugin://plugin.video.demo/root", "1", ""⟩
        (fun _ => some fun _ => .error ⟨"RuntimeError", "boom"⟩) =
      .notified "RuntimeError" "boom"
        ⟨"root", 1, [], [], []⟩ ∧
    Dispatcher.init.dispatch ⟨"script://x", "1", ""⟩ (fun _ => Option.none) =
      .raised ⟨"RuntimeError", "Only plugin:// paths are supported: not script://x"⟩ := by
  constructor
  · exact (C1_dispatch_containment ⟨"plugin://plugin.video.demo/root", "1", ""⟩
      (fun _ => some fun _ => .error ⟨"RuntimeError", "boom"⟩) Dispatcher.init).2.1
      ⟨"root", 1, [], [], []⟩ ⟨"RuntimeError", "boom"⟩ rfl rfl
  · exact (C1_dispatch_containment ⟨"script://x", "1", ""⟩
      (fun _ => Option.none) Dispatcher.init).1
      ⟨"RuntimeError", "Only plugin:// paths are supported: not script://x"⟩ rfl

/-- C2 counterexample: a non-empty sequence consisting of one falsy
placeholder is filtered down to zero items, yet no error is raised — the empty
batch is submitted to the host, contradicting the claim that zero items after
filtering raise EmptyResultError. -/
theorem C2_counterexample :
    add_listitems [Option.none] = .ok ([], false) := by
  rfl

/-- C2 amended: falsy placeholders are filtered out, but the emptiness check
runs on the raw sequence before filtering: the dispatch fails (with the
RuntimeError standing for EmptyResultError) exactly when the handler returned
an empty sequence, and any non-empty sequence — even one whose entries are all
falsy — submits its filtered batch to the host. -/
theorem C2_empty_check (raw : List (Option Sealed)) :
    ((∃ e, add_listitems raw = .error e) ↔ raw = []) ∧
    (∀ its flag, add_listitems raw = .ok (its, flag) → its = raw.filterMap id) := by
  constructor
  · constructor
    · intro ⟨e, he⟩
      by_contra hraw
      have hne : raw.isEmpty = false := by
        cases raw with
        | nil => exact absurd rfl hraw
        | cons a tl => rfl
      simp [add_listitems, hne] at he
    · intro hraw
      subst hraw
      exact ⟨⟨"RuntimeError", "No listitems found"⟩, rfl⟩
  · intro its flag h
    cases raw with
    | nil => simp [add_listitems] at h
    | cons a tl =>
      simp only [add_listitems, List.isEmpty_cons, Bool.false_eq_true, if_false,
        Except.ok.injEq, Prod.mk.injEq] at h
      exact h.1.symm

/-- C2 witness: a batch with one real item and one placeholder filters to just
the real item; the empty sequence is the only erroring input. -/
theorem C2_empty_check_witness :
    ([some ⟨"a", "m", true⟩, Option.none] : List (Option Sealed)) ≠ [] ∧
    ((∃ e, add_listitems ([] : List (Option Sealed)) = .error e) ↔
      ([] : List (Option Sealed)) = []) ∧
    [some ⟨"a", "m", true⟩, (Option.none : Option Sealed)].filterMap id = [⟨"a", "m", true⟩] ∧
    ([⟨"a", "m", true⟩] : List Sealed) =
      [some ⟨"a", "m", true⟩, (Option.none : Option Sealed)].filterMap id := by
  refine ⟨by simp, (C2_empty_check []).1, rfl, ?_⟩
  exact (C2_empty_check [some ⟨"a", "m", true⟩, Option.none]).2
    [⟨"a", "m", true⟩] true rfl

/-- C3 counterexample: a state whose queue holds one (failing) delayed
callback still holds it after `run_metacalls` — the drain does not clear the
queue, contradicting the claim that it is empty after one drain. -/
theorem C3_counterexample :
    (Dispatcher.run_metacalls
        ⟨"root", -1, [], [], [Except.error ⟨"RuntimeError", "boom"⟩]⟩).state.metacalls =
      [Except.error ⟨"RuntimeError", "boom"⟩] ∧
    ([Except.error ⟨"RuntimeError", "boom"⟩] : List (Except Exc Unit)) ≠ [] := by
  exact ⟨rfl, by simp⟩

/-- C3 amended: `run_metacalls` leaves the queue exactly as it found it, so a
second drain in the same process executes the very same scheduled callables
again; the queue is emptied only by `reset`, which the test path invokes after
the drain. -/
theorem C3_queue_after_drain (st : Dispatcher) :
    st.run_metacalls.state.metacalls = st.metacalls ∧
    st.run_metacalls.state.run_metacalls.executed = st.run_metacalls.executed ∧
    st.reset.metacalls = [] := by
  unfold Dispatcher.run_metacalls Dispatcher.reset
  by_cases h : st.metacalls.isEmpty <;> simp [h]

/-- C4 counterexample: for a module path with a trailing underscore the code
strips it (`str.strip("_")` removes both ends), while the claim preserves it:
the two derivations disagree at this input. -/
theorem C4_counterexample :
    register_path "menus_" "Main" = "menus/main" ∧
    register_path_claim "menus_" "Main" = "menus_/main" ∧
    register_path "menus_" "Main" ≠ register_path_claim "menus_" "Main" := by
  refine ⟨rfl, rfl, ?_⟩
  decide

/-- C4 amended: the canonical path is "root" when the handler's bare name
lower-cases to "root"; otherwise it is "<scope-path>/<handler-name>"
lower-cased, where the scope path is the declaring module's dotted path with
leading AND trailing underscores stripped and dots replaced by separators. -/
theorem C4_register_path (module callbackName : String) :
    register_path module callbackName = register_path_spec module callbackName := by
  unfold register_path register_path_spec
  split
  · next h => exact eq_of_beq h
  · rw [pyStrip_eq]

/-- C5: round-trip — pickling a mapping into `build_path`'s opaque query
encoding (prefix token plus hex-encoded serialized blob) and decoding it with
`parse_params` on a fresh dispatcher yields exactly the mapping back as the
parameter set, and the callback partition is exactly its non-control-shaped
subset. -/
theorem C5_roundtrip (m : List (String × PyValue)) (hnd : (m.map Prod.fst).Nodup) :
    Dispatcher.init.parse_params (encode_query m) =
      .ok ⟨"root", -1, m, m.filter fun p => !(isControlKey p.1), []⟩ := by
  have hbytes : ∀ b ∈ serVal (.vdict m), b < 256 := serVal_bytes _
  have h9 : ("_pickle_=" : String).data.length = 9 := rfl
  unfold Dispatcher.parse_params encode_query
  rw [pyStartswith_append, ← h9, pyDrop_append,
    unhexlify_hexlify _ hbytes]
  simp only [Option.some_bind, unpickleVal_serVal, if_true]
  simp [Dispatcher.withParams, Dispatcher.init, dictUpdate_nil m hnd]

/-- C5 witness: a concrete nested mapping with one control-shaped key
round-trips, and its callback partition drops exactly that key. -/
theorem C5_roundtrip_witness :
    (([("title", PyValue.vstr "abc"), ("_updatelisting_", PyValue.vbool true),
       ("ids", PyValue.vlist [PyValue.vint 3, PyValue.vint (-2)]),
       ("meta", PyValue.vdict [("k", PyValue.vnone)])].map Prod.fst).Nodup) ∧
    Dispatcher.init.parse_params
        (encode_query
          [("title", PyValue.vstr "abc"), ("_updatelisting_", PyValue.vbool true),
           ("ids", PyValue.vlist [PyValue.vint 3, PyValue.vint (-2)]),
           ("meta", PyValue.vdict [("k", PyValue.vnone)])]) =
      .ok ⟨"root", -1,
        [("title", PyValue.vstr "abc"), ("_updatelisting_", PyValue.vbool true),
         ("ids", PyValue.vlist [PyValue.vint 3, PyValue.vint (-2)]),
         ("meta", PyValue.vdict [("k", PyValue.vnone)])],
        [("title", PyValue.vstr "abc"),
         ("ids", PyValue.vlist [PyValue.vint 3, PyValue.vint (-2)]),
         ("meta", PyValue.vdict [("k", PyValue.vnone)])], []⟩ := by
  constructor
  · decide
  · have h := C5_roundtrip
      [("title", PyValue.vstr "abc"), ("_updatelisting_", PyValue.vbool true),
       ("ids", PyValue.vlist [PyValue.vint 3, PyValue.vint (-2)]),
       ("meta", PyValue.vdict [("k", PyValue.vnone)])] (by decide)
    rw [h]
    rfl

/-- C6: a flushed folder listing is classified folder-type exactly when
strictly more than half of the sealed items carry the is-folder flag
(`folder_counter > len(listitems) / 2` under Python 2 floor division); in
particular 2 folders out of 3 items classify as folder-type and 1 folder out
of 3 as media-type. -/
theorem C6_content_type :
    (∀ (raw : List (Option Sealed)) its flag,
      add_listitems raw = .ok (its, flag) →
      (flag = true ↔ its.length < 2 * (its.filter fun li => li.isfolder).length)) ∧
    add_listitems [some ⟨"a", "m", true⟩, some ⟨"b", "m", true⟩, some ⟨"c", "m", false⟩] =
      .ok ([⟨"a", "m", true⟩, ⟨"b", "m", true⟩, ⟨"c", "m", false⟩], true) ∧
    add_listitems [some ⟨"a", "m", true⟩, some ⟨"b", "m", false⟩, some ⟨"c", "m", false⟩] =
      .ok ([⟨"a", "m", true⟩, ⟨"b", "m", false⟩, ⟨"c", "m", false⟩], false) := by
  refine ⟨?_, rfl, rfl⟩
  intro raw its flag h
  cases raw with
  | nil => simp [add_listitems] at h
  | cons a tl =>
    simp only [add_listitems, List.isEmpty_cons, Bool.false_eq_true, if_false,
      Except.ok.injEq, Prod.mk.injEq] at h
    obtain ⟨hits, hflag⟩ := h
    subst hits
    rw [← hflag]
    simp only [decide_eq_true_eq]
    omega

/-- C6 witness: the general classification rule applied to the concrete
3-item, 2-folder batch. -/
theorem C6_content_type_witness :
    (true = true ↔
      ([⟨"a", "m", true⟩, ⟨"b", "m", true⟩, ⟨"c", "m", false⟩] : List Sealed).length <
        2 * (([⟨"a", "m", true⟩, ⟨"b", "m", true⟩, ⟨"c", "m", false⟩] : List Sealed).filter
          fun li => li.isfolder).length) :=
  C6_content_type.1
    [some ⟨"a", "m", true⟩, some ⟨"b", "m", true⟩, some ⟨"c", "m", false⟩]
    [⟨"a", "m", true⟩, ⟨"b", "m", true⟩, ⟨"c", "m", false⟩] true rfl

/-- C7: the post-decode partition of a parameter set is total and disjoint —
every decoded key lands in exactly one of the callback and control partitions,
and it lands in the control partition exactly when it both starts and ends
with the underscore sentinel. -/
theorem C7_partition (d : List (String × PyValue)) :
    (∀ k, ¬ (k ∈ (partitionParams d).1.map Prod.fst ∧
             k ∈ (partitionParams d).2.map Prod.fst)) ∧
    (∀ k, k ∈ d.map Prod.fst ↔
      (k ∈ (partitionParams d).1.map Prod.fst ∨
       k ∈ (partitionParams d).2.map Prod.fst)) ∧
    (∀ k, k ∈ d.map Prod.fst →
      (k ∈ (partitionParams d).2.map Prod.fst ↔ isControlKey k = true)) := by
  rw [partitionParams_spec]
  dsimp only
  refine ⟨fun k ⟨h1, h2⟩ => ?_, fun k => ?_, fun k hk => ?_⟩
  · have hc1 := (mem_keys_filter (fun k2 => !(isControlKey k2)) d k).mp h1
    have hc2 := (mem_keys_filter (fun k2 => isControlKey k2) d k).mp h2
    rw [hc2.2] at hc1
    simp at hc1
  · constructor
    · intro hk
      by_cases hc : isControlKey k = true
      · exact Or.inr ((mem_keys_filter (fun k2 => isControlKey k2) d k).mpr ⟨hk, hc⟩)
      · have hb : isControlKey k = false := by
          cases hcb : isControlKey k with
          | true => exact absurd hcb hc
          | false => rfl
        exact Or.inl ((mem_keys_filter (fun k2 => !(isControlKey k2)) d k).mpr
          ⟨hk, by simp [hb]⟩)
    · intro hk
      rcases hk with hk | hk
      · exact ((mem_keys_filter (fun k2 => !(isControlKey k2)) d k).mp hk).1
      · exact ((mem_keys_filter (fun k2 => isControlKey k2) d k).mp hk).1
  · constructor
    · intro h2
      exact ((mem_keys_filter (fun k2 => isControlKey k2) d k).mp h2).2
    · intro hc
      exact (mem_keys_filter (fun k2 => isControlKey k2) d k).mpr ⟨hk, hc⟩

/-- C7 witness: the partition rules applied to a concrete decoded set with one
control key, one callback key, and one key with only a leading underscore. -/
theorem C7_partition_witness :
    (("_updatelisting_" : String) ∈
      ([("title", PyValue.vstr "t"), ("_updatelisting_", PyValue.vbool true),
        ("_x", PyValue.vint 1)].map Prod.fst) →
      (("_updatelisting_" : String) ∈
        (partitionParams [("title", PyValue.vstr "t"),
          ("_updatelisting_", PyValue.vbool true),
          ("_x", PyValue.vint 1)]).2.map Prod.fst ↔
        isControlKey "_updatelisting_" = true)) ∧
    (("_x" : String) ∈
      ([("title", PyValue.vstr "t"), ("_updatelisting_", PyValue.vbool true),
        ("_x", PyValue.vint 1)].map Prod.fst) ↔
      (("_x" : String) ∈
        (partitionParams [("title", PyValue.vstr "t"),
          ("_updatelisting_", PyValue.vbool true),
          ("_x", PyValue.vint 1)]).1.map Prod.fst ∨
       ("_x" : String) ∈
        (partitionParams [("title", PyValue.vstr "t"),
          ("_updatelisting_", PyValue.vbool true),
          ("_x", PyValue.vint 1)]).2.map Prod.fst)) :=
  ⟨(C7_partition [("title", PyValue.vstr "t"), ("_updatelisting_", PyValue.vbool true),
      ("_x", PyValue.vint 1)]).2.2 "_updatelisting_",
   (C7_partition [("title", PyValue.vstr "t"), ("_updatelisting_", PyValue.vbool true),
      ("_x", PyValue.vint 1)]).2.1 "_x"⟩

/-- C8 counterexample: the empty string is a falsy result, yet it takes the
string branch of the shape dispatch and is resolved as a playable reference
with an empty path instead of failing with the no-source ResolutionError. -/
theorem C8_counterexample :
    pyTruthyResolved (.rstr "") = false ∧
    send_to_kodi "t" [] (.rstr "") = .ok ([], ⟨"", ""⟩) := by
  exact ⟨rfl, rfl⟩

/-- C8 amended: the dispatch is on the result's type, checked before
truthiness — a string (even an empty, falsy one) yields a single playable
reference with that path; a list or tuple builds the playback queue in input
order with the queue's first element returned; a list item passes through
unchanged; a value of any other type fails with the invalid-source error when
truthy and the no-source error when falsy. -/
theorem C8_shape_dispatch :
    (∀ t (pl : List ListItem) s,
      send_to_kodi t pl (.rstr s) = .ok (pl, ⟨"", s⟩)) ∧
    (∀ t (urls : List PlaySrc), urls ≠ [] →
      ∃ q first, send_to_kodi t [] (.rlist urls) = .ok (q, first) ∧
        q.head? = some first ∧ q.map ListItem.path = urls.map srcUrl) ∧
    (∀ t (pl : List ListItem) li,
      send_to_kodi t pl (.rlistitem li) = .ok (pl, li)) ∧
    (∀ t (pl : List ListItem),
      send_to_kodi t pl (.rother true) =
        .error ⟨"ValueError", "resolver returned invalid url"⟩ ∧
      send_to_kodi t pl (.rother false) =
        .error ⟨"ValueError", "resolver failed to return url"⟩) := by
  refine ⟨fun t pl s => rfl, fun t urls hne => ?_, fun t pl li => rfl,
    fun t pl => ⟨rfl, rfl⟩⟩
  have hpaths := playlistLoop_paths urls t 1
  cases hloop : playlistLoop t 1 urls with
  | nil =>
    rw [hloop] at hpaths
    cases urls with
    | nil => exact absurd rfl hne
    | cons a tl => simp at hpaths
  | cons x rest =>
    refine ⟨x :: rest, x, ?_, rfl, ?_⟩
    · simp [send_to_kodi, create_playlist, hloop]
    · rw [← hloop]
      exact hpaths

/-- C8 witness: a three-url sequence builds a three-entry queue in input order
whose first entry is the returned reference. -/
theorem C8_shape_dispatch_witness :
    ([PlaySrc.u "a", PlaySrc.u "b", PlaySrc.u "c"] ≠ []) ∧
    (∃ q first,
      send_to_kodi "t" [] (.rlist [PlaySrc.u "a", PlaySrc.u "b", PlaySrc.u "c"]) =
        .ok (q, first) ∧
      q.head? = some first ∧
      q.map ListItem.path = [PlaySrc.u "a", PlaySrc.u "b", PlaySrc.u "c"].map srcUrl) :=
  ⟨by simp, C8_shape_dispatch.2.1 "t" [PlaySrc.u "a", PlaySrc.u "b", PlaySrc.u "c"]
    (by simp)⟩

/-- C9: decoding a form-encoded query string whose field list repeats a key
fails with the duplicate-parameter error rather than overwriting; with unique
keys it returns exactly the decoded key-value mapping, values as text. `"a=1&a=2"`
is a concrete failing input. -/
theorem C9_parse_qs (qs : String) :
    (¬ ((parse_qsl qs).map Prod.fst).Nodup →
      ∃ k, parse_qs qs =
        .error ⟨"ValueError", "encountered duplicate param field name: " ++ k⟩) ∧
    (((parse_qsl qs).map Prod.fst).Nodup → parse_qs qs = .ok (parse_qsl qs)) ∧
    parse_qs "a=1&a=2" =
      .error ⟨"ValueError", "encountered duplicate param field name: a"⟩ := by
  refine ⟨fun hdup => ?_, fun hnd => ?_, rfl⟩
  · have := parse_qs_loop_err (parse_qsl qs) [] (by simp) (by simpa using hdup)
    simpa [parse_qs] using this
  · have := parse_qs_loop_ok (parse_qsl qs) [] (by simpa using hnd)
    simpa [parse_qs] using this

/-- C9 witness: the duplicate branch fires on `"a=1&a=2"` and the unique-key
branch returns the decoded mapping of `"a=1&b=2"`. -/
theorem C9_parse_qs_witness :
    (∃ k, parse_qs "a=1&a=2" =
      .error ⟨"ValueError", "encountered duplicate param field name: " ++ k⟩) ∧
    parse_qs "a=1&b=2" = .ok (parse_qsl "a=1&b=2") ∧
    parse_qsl "a=1&b=2" = [("a", "1"), ("b", "2")] :=
  ⟨(C9_parse_qs "a=1&a=2").1 (by decide),
   (C9_parse_qs "a=1&b=2").2.1 (by decide), rfl⟩

/-- C10: when any extra_query keyword argument is supplied, `build_path`
discards the explicitly passed query mapping: whatever mapping the caller
passed, the produced URL's query is the pickled copy of the dispatcher's
current parameter set updated with the extra_query entries. -/
theorem C10_extra_query_discards_query (pid : String) (route : RouteRec)
    (args : List PyValue) (q1 q2 extra : List (String × PyValue))
    (disp : Dispatcher) (hx : extra ≠ []) :
    build_path pid route args (some q1) extra disp =
      .ok (urlunsplit "plugin" pid route.path
        (encode_query (dictUpdate disp.params extra))) ∧
    build_path pid route args (some q1) extra disp =
      build_path pid route args (some q2) extra disp := by
  have hxe : extra.isEmpty = false := by
    cases extra with
    | nil => exact absurd rfl hx
    | cons a tl => rfl
  have hne : (dictUpdate disp.params extra).isEmpty = false := by
    have := dictUpdate_ne_nil disp.params extra hx
    cases hc : dictUpdate disp.params extra with
    | nil => exact absurd hc this
    | cons a tl => rfl
  have main : ∀ q : List (String × PyValue),
      build_path pid route args (some q) extra disp =
        .ok (urlunsplit "plugin" pid route.path
          (encode_query (dictUpdate disp.params extra))) := by
    intro q
    unfold build_path
    by_cases ha : args.isEmpty <;>
      simp [ha, hxe, hne]
  exact ⟨main q1, (main q1).trans (main q2).symm⟩

/-- C10 witness: with one extra_query entry, two different explicit query
mappings produce the same URL, whose query encodes the dispatcher params
updated with the extra entry. -/
theorem C10_extra_query_discards_query_witness :
    ([("next", PyValue.vbool true)] : List (String × PyValue)) ≠ [] ∧
    build_path "plugin.video.demo" ⟨"root", []⟩ []
        (some [("a", PyValue.vint 1)]) [("next", PyValue.vbool true)]
        ⟨"root", -1, [("page", PyValue.vint 2)], [], []⟩ =
      build_path "plugin.video.demo" ⟨"root", []⟩ []
        (some [("b", PyValue.vstr "zz")]) [("next", PyValue.vbool true)]
        ⟨"root", -1, [("page", PyValue.vint 2)], [], []⟩ ∧
    build_path "plugin.video.demo" ⟨"root", []⟩ []
        (some [("a", PyValue.vint 1)]) [("next", PyValue.vbool true)]
        ⟨"root", -1, [("page", PyValue.vint 2)], [], []⟩ =
      .ok (urlunsplit "plugin" "plugin.video.demo" "root"
        (encode_query (dictUpdate [("page", PyValue.vint 2)]
          [("next", PyValue.vbool true)]))) := by
  refine ⟨by simp, ?_, ?_⟩
  · exact (C10_extra_query_discards_query "plugin.video.demo" ⟨"root", []⟩ []
      [("a", PyValue.vint 1)] [("b", PyValue.vstr "zz")] [("next", PyValue.vbool true)]
      ⟨"root", -1, [("page", PyValue.vint 2)], [], []⟩ (by simp)).2
  · exact (C10_extra_query_discards_query "plugin.video.demo" ⟨"root", []⟩ []
      [("a", PyValue.vint 1)] [("b", PyValue.vstr "zz")] [("next", PyValue.vbool true)]
      ⟨"root", -1, [("page", PyValue.vint 2)], [], []⟩ (by simp)).1
